import Mathlib

/-!
Verification of `circuit_knitting/cutting/cutting_reconstruction.py`
(qiskit-addon-cutting).

The development shallowly embeds the module's three functions —
`reconstruct_expectation_values`, `_process_outcome` and `_outcome_to_int` —
together with the small slices of their collaborators that they consume.
Python arbitrary-precision integers are modelled by `Nat`/`Int`,
numpy float64 vectors by lists of rationals (every value manipulated here is
a signed unit or a finite sum of products of input rationals, so exact
arithmetic represents the numerics faithfully), Python exceptions by
`Except`, and Python dicts by association lists in insertion order.

Collaborators that are part of the repository but outside the sources under
verification (`utils/bitwise.py`, `utils/observable_grouping.py`,
`cutting_decomposition.py`, `qpd.py`) are modelled from the spec where noted
in doc comments.
-/

attribute [local semireducible] Rat.add Rat.mul Rat.sub Rat.inv

/-- Modelled from the spec: the bit-parity utility
`circuit_knitting.utils.bitwise.bit_count` (not under the verified sources).
Counts the set bits of a non-negative integer.  Implemented with a
structural fuel argument (`fuel = n` always suffices since the argument at
least halves every step) so that concrete evaluations reduce in the kernel. -/
def bitCountAux : Nat → Nat → Nat
  | 0, _ => 0
  | fuel + 1, n => if n = 0 then 0 else n % 2 + bitCountAux fuel (n / 2)

/-- Modelled from the spec: number of set bits of `n` (`bit_count` in
`utils/bitwise.py`). -/
def bit_count (n : Nat) : Nat := bitCountAux n n

/-- Bit length of a natural number (`n.bit_length()`), with a structural
fuel argument so concrete evaluations reduce in the kernel. -/
def natSizeAux : Nat → Nat → Nat
  | 0, _ => 0
  | fuel + 1, n => if n = 0 then 0 else natSizeAux fuel (n / 2) + 1

/-- Bit length of a natural number: least `k` with `n < 2 ^ k`. -/
def natSize (n : Nat) : Nat := natSizeAux n n

/-- Python `x & m` for an arbitrary integer `x` and a non-negative mask `m`:
only the low `natSize m` bits of the two's-complement representation of `x`
can contribute, and those are the bits of `x mod 2 ^ natSize m`. -/
def pyAnd (x : Int) (m : Nat) : Nat :=
  (Int.toNat (Int.emod x ((2 ^ natSize m : Nat) : Int))) &&& m

/-- Python `x >> n`: arithmetic shift, i.e. floor division by `2 ^ n`. -/
def pyShr (x : Int) (n : Nat) : Int := Int.ediv x ((2 ^ n : Nat) : Int)

/-- Value of `c` as a digit in base `b` (`b ∈ {2, 8, 10, 16}`), as Python's
`int` accepts it: `0`-`9`, `a`-`f`, `A`-`F`, rejected unless below the base. -/
def digitVal (b : Nat) (c : Char) : Option Nat :=
  let v : Option Nat :=
    if '0' ≤ c ∧ c ≤ '9' then some (c.toNat - '0'.toNat)
    else if 'a' ≤ c ∧ c ≤ 'f' then some (c.toNat - 'a'.toNat + 10)
    else if 'A' ≤ c ∧ c ≤ 'F' then some (c.toNat - 'A'.toNat + 10)
    else none
  match v with
  | some d => if d < b then some d else none
  | none => none

/-- Digit tail of a Python integer literal in base `b`: digits with single
underscores allowed strictly between digits. -/
def digitsLoop (b : Nat) : Nat → List Char → Option Nat
  | acc, [] => some acc
  | acc, '_' :: c :: cs =>
    (match digitVal b c with
     | some d => digitsLoop b (acc * b + d) cs
     | none => none)
  | _, ['_'] => none
  | acc, c :: cs =>
    (match digitVal b c with
     | some d => digitsLoop b (acc * b + d) cs
     | none => none)

/-- A non-empty run of base-`b` digits (leading underscore not allowed). -/
def parseDigitsStrict (b : Nat) : List Char → Option Nat
  | [] => none
  | c :: cs =>
    (match digitVal b c with
     | some d => digitsLoop b d cs
     | none => none)

/-- Digits after a `0b`/`0o`/`0x` radix marker; Python additionally allows a
single underscore directly after the marker. -/
def parseAfterRadix (b : Nat) : List Char → Option Nat
  | '_' :: cs => parseDigitsStrict b cs
  | cs => parseDigitsStrict b cs

/-- Unsigned body of a Python `int(s, 0)` literal: `0b`/`0o`/`0x` radix
markers (either case), otherwise decimal, with the base-0 rule that a
decimal literal may not have leading zeros unless its value is zero. -/
def pyIntBody : List Char → Option Nat
  | ['0'] => some 0
  | '0' :: c :: cs =>
    if c = 'b' ∨ c = 'B' then parseAfterRadix 2 cs
    else if c = 'o' ∨ c = 'O' then parseAfterRadix 8 cs
    else if c = 'x' ∨ c = 'X' then parseAfterRadix 16 cs
    else
      (match parseDigitsStrict 10 ('0' :: c :: cs) with
       | some 0 => some 0
       | _ => none)
  | cs => parseDigitsStrict 10 cs

/-- Python `int(s, 0)` on a character list: optional sign, then the base-0
body.  Surrounding whitespace and other unicode digit classes are not
modelled: the only caller has already removed the space characters, and
measurement-outcome strings contain none of the rest. -/
def pyIntLit (cs : List Char) : Option Int :=
  match cs with
  | [] => none
  | c :: rest =>
    if c = '+' then (pyIntBody rest).map fun n => (n : Int)
    else if c = '-' then (pyIntBody rest).map fun n => -(n : Int)
    else (pyIntBody (c :: rest)).map fun n => (n : Int)

/-- A measurement outcome as the code receives it: already an integer, or a
textual representation (`outcome: int | str`). -/
inductive Outcome where
  | int (n : Int)
  | str (s : String)
  deriving DecidableEq

/-- `outcome.replace(" ", "")`: drop every space character. -/
def stripSpaces (s : String) : List Char := s.data.filter fun c => c ≠ ' '

/-- Embedding of `_outcome_to_int`: integers pass through; strings have
their spaces removed, then are parsed as `int("0b" + s, 0)` when the string
is shorter than two characters or its second character is `0` or `1`, and as
`int(s, 0)` otherwise.  `none` models the `ValueError` escaping from
`int`. -/
def outcome_to_int : Outcome → Option Int
  | .int n => some n
  | .str s =>
    let cs := stripSpaces s
    if cs.length < 2 ∨ cs[1]? = some '0' ∨ cs[1]? = some '1' then
      pyIntLit ('0' :: 'b' :: cs)
    else
      pyIntLit cs

/-- The decoding rule exactly as claim C4 states it (claim-side definition,
for comparison with the embedded code): strip internal whitespace; if the
string, after an optional two-character radix prefix, consists solely of the
characters `0` and `1`, interpret it as a binary literal; otherwise
interpret it using its own embedded radix marker, falling back to decimal
if unmarked. -/
def spec_outcome_decode (s : String) : Option Int :=
  let cs := stripSpaces s
  let body : List Char :=
    match cs with
    | c0 :: c1 :: rest =>
      if c0 = '0' ∧ (c1 = 'b' ∨ c1 = 'B' ∨ c1 = 'o' ∨ c1 = 'O' ∨ c1 = 'x' ∨ c1 = 'X')
      then rest else cs
    | _ => cs
  if !body.isEmpty && body.all fun c => c == '0' || c == '1' then
    (parseDigitsStrict 2 body).map fun n => (n : Int)
  else
    pyIntLit cs

/-- A Pauli observable as this module consumes it: its Pauli-string label
(whose length is the qubit count, `len(pauli)`) and its group phase
(`pauli.phase`, an integer in `0..3`). -/
structure Pauli where
  paulis : String
  phase : Nat
  deriving DecidableEq

/-- Modelled from the spec: `CommutingObservableGroup`
(`utils/observable_grouping.py`, not under the verified sources).  Only the
members consumed by this module are modelled: the ordered member list
`commuting_observables` and the per-member classical-bit masks
`pauli_bitmasks`; the class derives the masks from the members, one per
member, which `hlen` records. -/
structure CommutingObservableGroup where
  commuting_observables : List Pauli
  pauli_bitmasks : List Nat
  hlen : commuting_observables.length = pauli_bitmasks.length

/-- Modelled from the spec: `ObservableCollection`
(`utils/observable_grouping.py`, not under the verified sources).  Owns the
partition into commuting groups and the reverse lookup from a subobservable
to its (group index, position-within-group) pairs; per its contract the
lookup serves every subobservable of the collection, so it is modelled as a
total function. -/
structure ObservableCollection where
  groups : List CommutingObservableGroup
  lookup : Pauli → List (Nat × Nat)

/-- Embedding of `_process_outcome`: decode the outcome, split off the low
`num_qpd_bits` bits, turn the parity of the QPD bits and, per member mask,
the parity of the masked measurement bits into signs, and return the signed
vector (`none` models the decoder's `ValueError`). -/
def _process_outcome (num_qpd_bits : Nat) (cog : CommutingObservableGroup)
    (outcome : Outcome) : Option (List ℚ) :=
  (outcome_to_int outcome).map fun out =>
    let qpd_outcomes : Nat := pyAnd out ((1 <<< num_qpd_bits) - 1)
    let meas_outcomes : Int := pyShr out num_qpd_bits
    let qpd_factor : Int := 1 - 2 * ((bit_count qpd_outcomes &&& 1 : Nat) : Int)
    cog.pauli_bitmasks.map fun mask =>
      ((qpd_factor *
        (1 - 2 * ((bit_count (pyAnd meas_outcomes mask) &&& 1 : Nat) : Int)) : Int) : ℚ)

/-- Modelled from the spec: the provenance tag of a weight term
(`WeightType` from `qpd.py`, not under the verified sources; an enum whose
members the reconstruction never inspects). -/
inductive WeightType where
  | EXACT
  | SAMPLED
  deriving DecidableEq

/-- A subexperiment circuit, reduced to the only attribute the module
consults: the ordered sizes of its classical registers (`circ.cregs`, with
`len(circ.cregs[0])` the QPD-bit count). -/
structure QuantumCircuit where
  cregs : List Nat
  deriving DecidableEq

/-- A quasi-distribution: (outcome, quasi-probability) pairs in insertion
order, as `quasi_probs.items()` yields them. -/
abbrev QuasiDist := List (Outcome × ℚ)

/-- A subsystem label (the code also admits integer keys; the claims only
exercise string labels, and Python refuses to sort mixed key types). -/
abbrev Label := String

/-- The `subexperiments` argument: a plain sequence or a dict keyed by
subsystem label (dicts are modelled as association lists in insertion
order). -/
inductive SubexperimentsInput where
  | flat (s : List QuantumCircuit)
  | dict (d : List (Label × List QuantumCircuit))

/-- The `observables` argument: a flat `PauliList` or a dict of them. -/
inductive ObservablesInput where
  | flat (l : List Pauli)
  | dict (d : List (Label × List Pauli))

/-- The `quasi_dists` argument: a sequence of quasi-distributions or a dict
of such sequences. -/
inductive QuasiDistsInput where
  | flat (l : List QuasiDist)
  | dict (d : List (Label × List QuasiDist))

/-- Whether `isinstance(subexperiments, Sequence)` holds. -/
def SubexperimentsInput.isFlat : SubexperimentsInput → Bool
  | .flat _ => true
  | .dict _ => false

/-- Whether `isinstance(observables, PauliList)` holds. -/
def ObservablesInput.isFlat : ObservablesInput → Bool
  | .flat _ => true
  | .dict _ => false

/-- Whether `isinstance(quasi_dists, Sequence)` holds. -/
def QuasiDistsInput.isFlat : QuasiDistsInput → Bool
  | .flat _ => true
  | .dict _ => false

/-- Errors that can escape the accumulation loop: a Python `ValueError`
from `int` on an unparseable outcome string, or a `KeyError`/`IndexError`
from a lookup (`runtime`). -/
inductive LoopErr where
  | runtime
  | malformedOutcome
  deriving DecidableEq

/-- The error taxonomy of `reconstruct_expectation_values`, naming each
raise site of the code: the two input-type `ValueError`s (`shapeMismatch`),
the nonzero-phase `ValueError` (`unsupportedPhase`), the `ValueError` from
outcome decoding (`malformedOutcome`), the `AssertionError` on the
subexperiment-count check (`structuralInvariant`), and residual
`KeyError`/`IndexError`/`ZeroDivisionError`/`NameError` raises
(`runtime`). -/
inductive RErr where
  | shapeMismatch
  | unsupportedPhase
  | malformedOutcome
  | structuralInvariant
  | runtime
  deriving DecidableEq

/-- Inject a loop error into the full taxonomy. -/
def toRErr : LoopErr → RErr
  | .runtime => .runtime
  | .malformedOutcome => .malformedOutcome

/-- Turn an optional value into an `Except`, raising `e` on `none`. -/
def toE (e : LoopErr) : Option α → Except LoopErr α
  | some a => .ok a
  | none => .error e

/-- Python dict membership access `d[k]` on an association list. -/
def dictLookup (d : List (Label × β)) (l : Label) : Option β :=
  (d.find? fun lp => lp.1 == l).map fun lp => lp.2

/-- Code-point comparison of strings as lists of characters, matching
Python's lexicographic `str` ordering (core `String.ltb` is opaque to the
kernel, so the order is spelled out on the character lists). -/
def strLtData : List Char → List Char → Bool
  | [], [] => false
  | [], _ :: _ => true
  | _ :: _, [] => false
  | a :: as, b :: bs =>
    if a.toNat < b.toNat then true
    else if b.toNat < a.toNat then false
    else strLtData as bs

/-- `a ≤ b` on labels, via the code-point order. -/
def labelLe (a b : Label) : Bool := !(strLtData b.data a.data)

/-- Stable insertion of a label into a sorted list. -/
def insertLabel (a : Label) : List Label → List Label
  | [] => [a]
  | b :: rest => if labelLe a b then a :: b :: rest else b :: insertLabel a rest

/-- Python `sorted(d.keys())`: the keys of the dict in ascending order. -/
def sortKeys (d : List (Label × β)) : List Label :=
  (d.map fun lp => lp.1).foldr insertLabel []

/-- `{label: ObservableCollection(subobservables) for label, subobservables
in subobservables_by_subsystem.items()}`, with the externally supplied
collection constructor `buildOC`. -/
def buildSO (buildOC : List Pauli → ObservableCollection)
    (sbs : List (Label × List Pauli)) : List (Label × ObservableCollection) :=
  sbs.map fun lp => (lp.1, buildOC lp.2)

/-- The `num_qpd_bits` table: for each label in sorted order, the sizes of
the first classical register of each of that label's subexperiments
(`KeyError` on a missing label, `IndexError` when a circuit has no
classical register). -/
def computeNumQpdBits (seDict : List (Label × List QuantumCircuit))
    (labels : List Label) : Except LoopErr (List (Label × List Nat)) :=
  labels.mapM fun label => do
    let circs ← toE .runtime (dictLookup seDict label)
    let ws ← circs.mapM fun c => toE .runtime c.cregs[0]?
    pure (label, ws)

/-- One commuting group's accumulator: starting from
`np.zeros(len(cog.commuting_observables))`, add
`quasi_prob * _process_outcome(num_qpd_bits, cog, outcome)` for every
(outcome, quasi-probability) pair, looking the QPD-bit count up per
outcome exactly as the source's loop body does. -/
def processGroup (numQpd : List (Label × List Nat)) (label : Label) (idx : Nat)
    (cog : CommutingObservableGroup) (qp : QuasiDist) :
    Except LoopErr (List ℚ) :=
  qp.foldlM
    (fun acc op => do
      let nqs ← toE .runtime (dictLookup numQpd label)
      let nq ← toE .runtime nqs[idx]?
      let rv ← toE .malformedOutcome (_process_outcome nq cog op.1)
      pure (List.zipWith (· + ·) acc (rv.map fun x => op.2 * x)))
    (List.replicate cog.commuting_observables.length (0 : ℚ))

/-- `subsystem_expvals` for one label and one weight index: for each group
`k`, fetch the quasi-distribution at flat index
`i * len(so.groups) + k` and fold its outcomes through the outcome
processor. -/
def computeSubsystemExpvals (so : ObservableCollection)
    (numQpd : List (Label × List Nat)) (qdDict : List (Label × List QuasiDist))
    (label : Label) (i : Nat) : Except LoopErr (List (List ℚ)) :=
  (List.range so.groups.length).mapM fun k => do
    let cog ← toE .runtime so.groups[k]?
    let qds ← toE .runtime (dictLookup qdDict label)
    let qp ← toE .runtime qds[i * so.groups.length + k]?
    processGroup numQpd label (i * so.groups.length + k) cog qp

/-- The group-accumulator entry at a (group, position) pair,
`subsystem_expvals[m][n]`. -/
def svEntry (sv : List (List ℚ)) (mn : Nat × Nat) : Option ℚ :=
  sv[mn.1]? >>= fun row => row[mn.2]?

/-- `[subsystem_expvals[m][n] for m, n in so.lookup[subobservable]]`
(`IndexError` when a pair is out of range). -/
def lookupVals (so : ObservableCollection) (sv : List (List ℚ))
    (subobs : Pauli) : Except LoopErr (List ℚ) :=
  (so.lookup subobs).mapM fun mn => toE .runtime (svEntry sv mn)

/-- `np.mean` of a list: the sum divided by the length. -/
def listMean (l : List ℚ) : ℚ := l.sum / (l.length : ℚ)

/-- The loop `for k, subobservable in enumerate(...)`: multiply entry `k` of
`current_expvals` by the mean of the group-accumulator values that the
reverse lookup yields for that subobservable (`IndexError` when `k` is out
of range). -/
def applyMeans (so : ObservableCollection) (sv : List (List ℚ)) :
    List Pauli → Nat → List ℚ → Except LoopErr (List ℚ)
  | [], _, current => .ok current
  | subobs :: rest, k, current => do
    let vals ← lookupVals so sv subobs
    let c ← toE .runtime current[k]?
    applyMeans so sv rest (k + 1) (current.set k (c * listMean vals))

/-- The body of `for label in sorted_subsystems`: look the label's
collection up, bind `weight = weights[i]`, build the per-group accumulators
and fold the per-subobservable means into `current_expvals`. -/
def labelStep (soDict : List (Label × ObservableCollection))
    (sbs : List (Label × List Pauli)) (numQpd : List (Label × List Nat))
    (qdDict : List (Label × List QuasiDist))
    (weights : List (ℚ × WeightType)) (i : Nat)
    (current : List ℚ) (label : Label) : Except LoopErr (List ℚ) := do
  let so ← toE .runtime (dictLookup soDict label)
  let _w ← toE .runtime weights[i]?
  let sv ← computeSubsystemExpvals so numQpd qdDict label i
  let subobsList ← toE .runtime (dictLookup sbs label)
  applyMeans so sv subobsList 0 current

/-- One weight-term iteration: start from
`current_expvals = np.ones(len(expvals))`, fold every subsystem label in
sorted order through `labelStep`, then add
`weight[0] * current_expvals` into `expvals`.  A raise inside the iteration
carries the `expvals` accumulator as it stood at the raise; the empty
label list reproduces the source's `NameError` on the never-bound
`weight`. -/
def weightStep (soDict : List (Label × ObservableCollection))
    (sortedSubsystems : List Label) (sbs : List (Label × List Pauli))
    (numQpd : List (Label × List Nat)) (qdDict : List (Label × List QuasiDist))
    (weights : List (ℚ × WeightType)) (expvals : List ℚ) (i : Nat) :
    Except (RErr × List ℚ) (List ℚ) :=
  let current0 := List.replicate expvals.length (1 : ℚ)
  match sortedSubsystems.foldlM (labelStep soDict sbs numQpd qdDict weights i) current0 with
  | .error e => .error (toRErr e, expvals)
  | .ok current =>
    match sortedSubsystems with
    | [] => .error (.runtime, expvals)
    | _ :: _ =>
      match weights[i]? with
      | none => .error (.runtime, expvals)
      | some w => .ok (List.zipWith (· + ·) expvals (current.map fun x => w.1 * x))

/-- The part of `reconstruct_expectation_values` shared by the two input
shapes, starting at the construction of `subsystem_observables`: the
`num_qpd_bits` table, the structural assertion on the smallest
subexperiment key, and the main accumulation loop over the weight
indices.  Errors carry the `expvals` accumulator at the raise. -/
def mainPart (buildOC : List Pauli → ObservableCollection)
    (sbs : List (Label × List Pauli))
    (seDict : List (Label × List QuantumCircuit))
    (qdDict : List (Label × List QuasiDist))
    (weights : List (ℚ × WeightType)) (expvals0 : List ℚ) :
    Except (RErr × List ℚ) (List ℚ) :=
  let soDict := buildSO buildOC sbs
  let sortedSubsystems := sortKeys soDict
  match computeNumQpdBits seDict sortedSubsystems with
  | .error e => .error (toRErr e, expvals0)
  | .ok numQpd =>
    match (sortKeys seDict)[0]? with
    | none => .error (.runtime, expvals0)
    | some key0 =>
      match dictLookup seDict key0 with
      | none => .error (.runtime, expvals0)
      | some se0 =>
        match dictLookup soDict key0 with
        | none => .error (.runtime, expvals0)
        | some so0 =>
          if so0.groups.length = 0 then .error (.runtime, expvals0)
          else if se0.length % so0.groups.length ≠ 0 then
            .error (.structuralInvariant, expvals0)
          else
            (List.range weights.length).foldlM
              (weightStep soDict sortedSubsystems sbs numQpd qdDict weights)
              expvals0

/-- Embedding of `reconstruct_expectation_values`.  The two external
collaborators are passed in as functions: `decomp` is
`decompose_observables` (from `cutting_decomposition.py`) and `buildOC` the
`ObservableCollection` constructor; both are consumed, never defined, by
the verified module.  The result models the returned list of expectation
values; an error models a raise and also records the `expvals` accumulator
as it stood when the raise happened (`[]` before `expvals` exists), so that
fail-fast properties are expressible. -/
def reconstruct_expectation_values
    (decomp : List Pauli → String → List (Label × List Pauli))
    (buildOC : List Pauli → ObservableCollection)
    (subexperiments : SubexperimentsInput) (observables : ObservablesInput)
    (weights : List (ℚ × WeightType)) (quasi_dists : QuasiDistsInput) :
    Except (RErr × List ℚ) (List ℚ) :=
  match subexperiments, observables, quasi_dists with
  | .flat se, .flat ob, .flat qd =>
    if ob.any fun p => p.phase != 0 then .error (.unsupportedPhase, [])
    else
      match ob[0]? with
      | none => .error (.runtime, [])
      | some ob0 =>
        mainPart buildOC
          (decomp ob (String.mk (List.replicate ob0.paulis.length 'A')))
          [("A", se)] [("A", qd)] weights (List.replicate ob.length (0 : ℚ))
  | .dict se, .dict ob, .dict qd =>
    if ob.any fun lp => lp.2.any fun p => p.phase != 0 then
      .error (.unsupportedPhase, [])
    else
      match ob[0]? with
      | none => .error (.runtime, [])
      | some lp0 =>
        mainPart buildOC ob se qd weights (List.replicate lp0.2.length (0 : ℚ))
  | _, _, _ => .error (.shapeMismatch, [])

/-- Decidable equality on `Except`, so that concrete runs of the embedded
pipeline can be checked by `decide`. -/
instance [DecidableEq ε] [DecidableEq α] : DecidableEq (Except ε α) := fun x y =>
  match x, y with
  | .error a, .error b =>
    if h : a = b then .isTrue (by rw [h])
    else .isFalse fun c => h (by cases c; rfl)
  | .ok a, .ok b =>
    if h : a = b then .isTrue (by rw [h])
    else .isFalse fun c => h (by cases c; rfl)
  | .error _, .ok _ => .isFalse fun c => Except.noConfusion c
  | .ok _, .error _ => .isFalse fun c => Except.noConfusion c

/-- A single-qubit `Z` observable with phase 0 (concrete test datum). -/
def pauliZ : Pauli := ⟨"Z", 0⟩

/-- A single-qubit `Z` observable with nonzero phase (concrete test datum). -/
def pauliZbad : Pauli := ⟨"Z", 1⟩

/-- A one-member commuting group measuring `Z` on classical bit 0. -/
def cogZ : CommutingObservableGroup := ⟨[pauliZ], [1], rfl⟩

/-- A collection with the single group `cogZ` and the lookup sending every
subobservable to that group's only slot. -/
def ocZ : ObservableCollection := ⟨[cogZ], fun _ => [(0, 0)]⟩

/-- A collection constructor returning `ocZ` for every input (stands in for
the external `ObservableCollection` constructor in concrete runs). -/
def buildOCZ : List Pauli → ObservableCollection := fun _ => ocZ

/-- A collection whose single group has two members (concrete datum that
makes the structural assertion fail on a one-subexperiment input). -/
def ocTwoGroups : ObservableCollection :=
  ⟨[cogZ, cogZ], fun _ => [(0, 0)]⟩

/-- A collection constructor returning `ocTwoGroups` for every input. -/
def buildOCTwo : List Pauli → ObservableCollection := fun _ => ocTwoGroups

/-- A trivial stand-in for `decompose_observables` (never reached in the
concrete runs below, which all use the dictionary input shape). -/
def decomp0 : List Pauli → String → List (Label × List Pauli) := fun _ _ => []

/-- A subexperiment whose only classical register is empty, so that its
`num_qpd_bits` is 0. -/
def circ0 : QuantumCircuit := ⟨[0]⟩

theorem natSizeAux_spec (fuel : Nat) : ∀ n : Nat, n ≤ fuel → n < 2 ^ natSizeAux fuel n := by
  induction fuel with
  | zero =>
    intro n h
    have hn : n = 0 := Nat.le_zero.mp h
    subst hn
    simp [natSizeAux]
  | succ f ih =>
    intro n h
    by_cases h0 : n = 0
    · subst h0
      simp [natSizeAux]
    · have hh : n / 2 ≤ f := by omega
      have hrec := ih (n / 2) hh
      simp only [natSizeAux, h0, if_false]
      rw [pow_succ]
      omega

theorem lt_two_pow_natSize (n : Nat) : n < 2 ^ natSize n :=
  natSizeAux_spec n n le_rfl

theorem land_mod_natSize (a m : Nat) : (a % 2 ^ natSize m) &&& m = a &&& m := by
  apply Nat.eq_of_testBit_eq
  intro i
  rw [Nat.testBit_land, Nat.testBit_land, Nat.testBit_mod_two_pow]
  by_cases h : i < natSize m
  · simp [h]
  · have hm : m.testBit i = false :=
      Nat.testBit_lt_two_pow (lt_of_lt_of_le (lt_two_pow_natSize m)
        (Nat.pow_le_pow_right (by norm_num) (Nat.le_of_not_lt h)))
    simp [hm]

theorem pyAnd_natCast (a m : Nat) : pyAnd (a : Int) m = a &&& m := by
  show (a % 2 ^ natSize m) &&& m = a &&& m
  exact land_mod_natSize a m

theorem pyShr_natCast (a n : Nat) : pyShr (a : Int) n = ((a >>> n : Nat) : Int) := by
  show ((a / 2 ^ n : Nat) : Int) = ((a >>> n : Nat) : Int)
  rw [Nat.shiftRight_eq_div_pow]

theorem sign_of_parity (c : Nat) :
    ((1 : Int) - 2 * ((c &&& 1 : Nat) : Int)) = 1 ∨ ((1 : Int) - 2 * ((c &&& 1 : Nat) : Int)) = -1 := by
  rw [Nat.and_one_is_mod]
  omega

theorem process_outcome_int (nq : Nat) (cog : CommutingObservableGroup) (out : Nat) :
    _process_outcome nq cog (.int (out : Int)) =
      some (cog.pauli_bitmasks.map fun mask =>
        ((((1 : Int) - 2 * ((bit_count (out &&& ((1 <<< nq) - 1)) &&& 1 : Nat) : Int)) *
          ((1 : Int) - 2 * ((bit_count ((out >>> nq) &&& mask) &&& 1 : Nat) : Int))) : ℚ)) := by
  simp only [_process_outcome, outcome_to_int, Option.map_some']
  congr 1
  apply List.map_congr_left
  intro mask _
  rw [pyAnd_natCast, pyShr_natCast, pyAnd_natCast]
  push_cast
  ring

/-- C1: for every non-negative integer outcome, every `num_qpd_bits ≥ 0` and
every commuting group with per-member bitmasks, the outcome processor splits
the decoded outcome into `qpd_outcomes = outcome & ((1 << num_qpd_bits) - 1)`
and `meas_outcomes = outcome >> num_qpd_bits`, computes
`qpd_sign = 1 - 2 * (parity(qpd_outcomes) & 1)`, and returns, for each group
member with bitmask `m` in group order, the value
`qpd_sign * (1 - 2 * (parity(meas_outcomes & m) & 1))`. -/
theorem c1_process_outcome_formula (out nq : Nat) (cog : CommutingObservableGroup) :
    _process_outcome nq cog (.int (out : Int)) =
      some (cog.pauli_bitmasks.map fun m =>
        ((((1 : Int) - 2 * ((bit_count (out &&& ((1 <<< nq) - 1)) &&& 1 : Nat) : Int)) *
          ((1 : Int) - 2 * ((bit_count ((out >>> nq) &&& m) &&& 1 : Nat) : Int))) : ℚ)) :=
  process_outcome_int nq cog out

/-- C9: for every non-negative integer outcome, every `num_qpd_bits ≥ 0` and
every set of member bitmasks, the outcome processor returns a vector with
one entry per group member whose every entry is exactly `+1` or `-1`.  (The
embedding is a pure function of its arguments, so the no-mutation part of
the claim holds by construction.) -/
theorem c9_entries_pm_one (out nq : Nat) (cog : CommutingObservableGroup) :
    ∃ v, _process_outcome nq cog (.int (out : Int)) = some v ∧
      v.length = cog.pauli_bitmasks.length ∧ ∀ x ∈ v, x = 1 ∨ x = -1 := by
  refine ⟨_, process_outcome_int nq cog out, by simp, ?_⟩
  intro x hx
  simp only [List.mem_map] at hx
  obtain ⟨mask, _, rfl⟩ := hx
  have hh : ∀ c : Nat, c &&& 1 = 0 ∨ c &&& 1 = 1 := by
    intro c
    rw [Nat.and_one_is_mod]
    omega
  rcases hh (bit_count (out &&& ((1 <<< nq) - 1))) with h1 | h1 <;>
    rcases hh (bit_count ((out >>> nq) &&& mask)) with h2 | h2 <;>
      rw [h1, h2] <;> norm_num

/-- C4 counterexample: the claim's rule decodes `"102"` as decimal 102
(it is not made solely of `0`/`1`, with or without a prefix, and carries no
radix marker), but the code — whose branch tests only the second character,
here `'0'` — prepends `0b` and raises on the digit `2`. -/
theorem c4_counterexample :
    outcome_to_int (.str "102") = none ∧ spec_outcome_decode "102" = some 102 := by
  constructor <;> decide

/-- C4 amended: after stripping spaces, the decoder branches on whether the
string is shorter than two characters or its second character is `0` or `1`
(not on the whole string's alphabet): in that case the entire stripped
string is read as the digit part of a binary literal, and otherwise it is
read as a Python base-0 literal, using its embedded radix marker and
falling back to decimal; strings unparseable under these rules raise the
malformed-outcome error. -/
theorem c4_amended :
    (∀ s : String,
        ((stripSpaces s).length < 2 ∨ (stripSpaces s)[1]? = some '0' ∨
          (stripSpaces s)[1]? = some '1') →
        outcome_to_int (.str s) =
          (parseAfterRadix 2 (stripSpaces s)).map fun n => (n : Int)) ∧
    (∀ s : String,
        ¬((stripSpaces s).length < 2 ∨ (stripSpaces s)[1]? = some '0' ∨
          (stripSpaces s)[1]? = some '1') →
        outcome_to_int (.str s) = pyIntLit (stripSpaces s)) := by
  constructor
  · intro s h
    simp only [outcome_to_int]
    rw [if_pos h]
    rfl
  · intro s h
    simp only [outcome_to_int]
    rw [if_neg h]

/-- C4 amended, witness: `"01"` takes the binary branch and `"2x"` the
base-0 branch. -/
theorem c4_amended_witness :
    (outcome_to_int (.str "01") =
      (parseAfterRadix 2 (stripSpaces "01")).map fun n => (n : Int)) ∧
    (outcome_to_int (.str "2x") = pyIntLit (stripSpaces "2x")) :=
  ⟨c4_amended.1 "01" (by decide), c4_amended.2 "2x" (by decide)⟩

/-- A parsed Python base-0 literal without a leading minus sign is
non-negative. -/
theorem pyIntLit_nonneg (cs : List Char) (h : '-' ∉ cs) (v : Int)
    (hv : pyIntLit cs = some v) : 0 ≤ v := by
  cases cs with
  | nil => simp [pyIntLit] at hv
  | cons c rest =>
    by_cases hp : c = '+'
    · simp only [pyIntLit, if_pos hp] at hv
      cases hb : pyIntBody rest with
      | none => simp [hb] at hv
      | some n =>
        simp [hb] at hv
        omega
    · by_cases hm : c = '-'
      · subst hm
        exact absurd (List.mem_cons_self _ _) h
      · simp only [pyIntLit, if_neg hp, if_neg hm] at hv
        cases hb : pyIntBody (c :: rest) with
        | none => simp [hb] at hv
        | some n =>
          simp [hb] at hv
          omega

/-- C5 counterexample: decoding the integer `-3` returns it unchanged, and
`-3` is negative, contradicting the claim that every decoded value is
non-negative. -/
theorem c5_counterexample :
    outcome_to_int (.int (-3)) = some (-3) ∧ ((-3 : Int) < 0) := by
  constructor <;> decide

/-- C5 amended: decoding an already-integer outcome returns it unchanged
(so the result is non-negative exactly when that integer is), and decoding
any string without a minus sign yields a non-negative value whenever it
succeeds. -/
theorem c5_amended :
    (∀ n : Int, outcome_to_int (.int n) = some n) ∧
    (∀ n : Int, 0 ≤ n → ∀ v : Int, outcome_to_int (.int n) = some v → 0 ≤ v) ∧
    (∀ s : String, '-' ∉ s.data → ∀ v : Int,
      outcome_to_int (.str s) = some v → 0 ≤ v) := by
  refine ⟨fun n => rfl, ?_, ?_⟩
  · intro n hn v hv
    cases hv
    exact hn
  · intro s hs v hv
    have hcs : '-' ∉ stripSpaces s := fun hmem => hs (List.mem_of_mem_filter hmem)
    simp only [outcome_to_int] at hv
    split at hv
    · refine pyIntLit_nonneg _ ?_ v hv
      intro hmem
      simp only [List.mem_cons] at hmem
      rcases hmem with h1 | h1 | h1
      · exact absurd h1 (by decide)
      · exact absurd h1 (by decide)
      · exact hcs h1
    · exact pyIntLit_nonneg _ hcs v hv

/-- C5 amended, witness: the integer `7` decodes to itself, and the
sign-free string `"11"` decodes to the non-negative value `3`. -/
theorem c5_amended_witness :
    outcome_to_int (.int 7) = some 7 ∧ (0 : Int) ≤ 3 :=
  ⟨c5_amended.1 7, c5_amended.2.2 "11" (by decide) 3 (by decide)⟩

theorem except_bind_error {ε α β : Type} {x : Except ε α} {f : α → Except ε β} {e : ε}
    (h : x >>= f = .error e) : x = .error e ∨ ∃ a, x = .ok a ∧ f a = .error e := by
  cases x with
  | error e' =>
    left
    have : e' = e := by
      simpa [Bind.bind, Except.bind] using h
    rw [this]
  | ok a =>
    right
    exact ⟨a, rfl, by simpa [Bind.bind, Except.bind] using h⟩

theorem foldlM_error_pred {α β ε : Type} {f : β → α → Except ε β} {P : ε → Prop}
    (hf : ∀ b a e, f b a = .error e → P e) :
    ∀ (l : List α) (b : β) (e : ε), l.foldlM f b = .error e → P e := by
  intro l
  induction l with
  | nil =>
    intro b e h
    simp [List.foldlM, pure, Except.pure] at h
  | cons a rest ih =>
    intro b e h
    rw [List.foldlM_cons] at h
    rcases except_bind_error h with h1 | ⟨b', _, h2⟩
    · exact hf b a e h1
    · exact ih b' e h2

theorem weightStep_error {soDict : List (Label × ObservableCollection)}
    {sortedSubsystems : List Label} {sbs : List (Label × List Pauli)}
    {numQpd : List (Label × List Nat)} {qdDict : List (Label × List QuasiDist)}
    {weights : List (ℚ × WeightType)} {expvals : List ℚ} {i : Nat}
    {e : RErr} {v : List ℚ}
    (h : weightStep soDict sortedSubsystems sbs numQpd qdDict weights expvals i =
      .error (e, v)) :
    (e = .runtime ∨ e = .malformedOutcome) ∧ v = expvals := by
  simp only [weightStep] at h
  split at h
  · simp only [Except.error.injEq, Prod.mk.injEq] at h
    obtain ⟨h1, h2⟩ := h
    subst h2
    rename_i e' _
    cases e' <;> simp [toRErr] at h1 <;> simp [h1]
  · split at h
    · simp only [Except.error.injEq, Prod.mk.injEq] at h
      obtain ⟨h1, h2⟩ := h
      simp [← h1, h2]
    · split at h
      · simp only [Except.error.injEq, Prod.mk.injEq] at h
        obtain ⟨h1, h2⟩ := h
        simp [← h1, h2]
      · exact absurd h (by simp)

theorem mainPart_error_cases {buildOC : List Pauli → ObservableCollection}
    {sbs : List (Label × List Pauli)} {seDict : List (Label × List QuantumCircuit)}
    {qdDict : List (Label × List QuasiDist)} {weights : List (ℚ × WeightType)}
    {expvals0 : List ℚ} {e : RErr} {v : List ℚ}
    (h : mainPart buildOC sbs seDict qdDict weights expvals0 = .error (e, v)) :
    (e = .runtime ∨ e = .malformedOutcome) ∨
      (e = .structuralInvariant ∧ v = expvals0 ∧
        ∃ numQpd key0 se0 so0,
          computeNumQpdBits seDict (sortKeys (buildSO buildOC sbs)) = .ok numQpd ∧
          (sortKeys seDict)[0]? = some key0 ∧
          dictLookup seDict key0 = some se0 ∧
          dictLookup (buildSO buildOC sbs) key0 = some so0 ∧
          ¬so0.groups.length = 0 ∧ ¬se0.length % so0.groups.length = 0) := by
  simp only [mainPart] at h
  split at h
  · rename_i e' _
    simp only [Except.error.injEq, Prod.mk.injEq] at h
    left
    cases e' <;> simp [toRErr] at h <;> simp [h.1]
  · rename_i numQpd hnq
    split at h
    · simp only [Except.error.injEq, Prod.mk.injEq] at h
      left
      left
      exact h.1.symm
    · rename_i key0 hkey
      split at h
      · simp only [Except.error.injEq, Prod.mk.injEq] at h
        left
        left
        exact h.1.symm
      · rename_i se0 hse
        split at h
        · simp only [Except.error.injEq, Prod.mk.injEq] at h
          left
          left
          exact h.1.symm
        · rename_i so0 hso
          split at h
          · simp only [Except.error.injEq, Prod.mk.injEq] at h
            left
            left
            exact h.1.symm
          · rename_i hgz
            split at h
            · rename_i hmod
              simp only [Except.error.injEq, Prod.mk.injEq] at h
              right
              exact ⟨h.1.symm, h.2.symm,
                numQpd, key0, se0, so0, hnq, hkey, hse, hso, hgz, hmod⟩
            · left
              have hstep : ∀ (b : List ℚ) (a : Nat) (p : RErr × List ℚ),
                  weightStep (buildSO buildOC sbs) (sortKeys (buildSO buildOC sbs))
                      sbs numQpd qdDict weights b a = .error p →
                  p.1 = RErr.runtime ∨ p.1 = RErr.malformedOutcome := by
                intro b a p hp
                obtain ⟨e1, v1⟩ := p
                exact (weightStep_error hp).1
              exact foldlM_error_pred hstep _ _ _ h

/-- C8: whenever the three correlated inputs are not consistently shaped —
all three flat or all three dictionaries — the call fails with the
shape-mismatch error (before `expvals` even exists, hence the empty
accumulator). -/
theorem c8_shape_mismatch (decomp : List Pauli → String → List (Label × List Pauli))
    (buildOC : List Pauli → ObservableCollection)
    (se : SubexperimentsInput) (ob : ObservablesInput)
    (w : List (ℚ × WeightType)) (qd : QuasiDistsInput)
    (h : ¬((se.isFlat = true ∧ ob.isFlat = true ∧ qd.isFlat = true) ∨
        (se.isFlat = false ∧ ob.isFlat = false ∧ qd.isFlat = false))) :
    reconstruct_expectation_values decomp buildOC se ob w qd =
      .error (.shapeMismatch, []) := by
  cases se <;> cases ob <;> cases qd <;>
    first
    | rfl
    | exact absurd (by simp [SubexperimentsInput.isFlat, ObservablesInput.isFlat,
        QuasiDistsInput.isFlat]) h

/-- C8 witness: a flat `subexperiments` sequence paired with a dictionary of
observables (the claim's own example) fails with the shape-mismatch
error. -/
theorem c8_shape_mismatch_witness :
    reconstruct_expectation_values decomp0 buildOCZ (.flat []) (.dict [("A", [pauliZ])])
        [] (.flat []) = .error (.shapeMismatch, []) :=
  c8_shape_mismatch decomp0 buildOCZ (.flat []) (.dict [("A", [pauliZ])]) [] (.flat [])
    (by decide)

/-- C2 counterexample: with two weight terms whose second quasi-distribution
holds the unparseable outcome string `"2x"`, the function raises the
malformed-outcome error only after the first weight term has already
accumulated `-1` into the result vector — so not every error is raised
before numeric accumulation begins. -/
theorem c2_counterexample :
    reconstruct_expectation_values decomp0 buildOCZ
        (.dict [("A", [circ0, circ0])]) (.dict [("A", [pauliZ])])
        [(1, .EXACT), (1, .EXACT)]
        (.dict [("A", [[(.int 1, 1)], [(.str "2x", 1)]])]) =
      .error (.malformedOutcome, [-1]) ∧ (-1 : ℚ) ≠ 0 := by
  constructor <;> decide

/-- C2 amended: the shape-mismatch, unsupported-phase and
structural-invariant errors are raised before any numeric accumulation:
whenever the function fails with one of these, the accumulator recorded at
the raise is identically zero.  (The malformed-outcome error, by contrast,
is raised when the offending outcome is first decoded, which can be after
earlier weight terms have accumulated; no partial result is ever returned
to the caller in any case.) -/
theorem c2_amended (decomp : List Pauli → String → List (Label × List Pauli))
    (buildOC : List Pauli → ObservableCollection)
    (se : SubexperimentsInput) (ob : ObservablesInput)
    (w : List (ℚ × WeightType)) (qd : QuasiDistsInput) (e : RErr) (v : List ℚ)
    (h : reconstruct_expectation_values decomp buildOC se ob w qd = .error (e, v))
    (he : e = .shapeMismatch ∨ e = .unsupportedPhase ∨ e = .structuralInvariant) :
    ∀ x ∈ v, x = 0 := by
  cases se <;> cases ob <;> cases qd <;>
    simp only [reconstruct_expectation_values] at h
  all_goals try (
    simp only [Except.error.injEq, Prod.mk.injEq] at h
    rcases h with ⟨h1, h2⟩
    subst h2
    intro x hx
    exact absurd hx (List.not_mem_nil x))
  all_goals (
    split at h
    · simp only [Except.error.injEq, Prod.mk.injEq] at h
      rcases h with ⟨h1, h2⟩
      subst h2
      intro x hx
      exact absurd hx (List.not_mem_nil x)
    · split at h
      · simp only [Except.error.injEq, Prod.mk.injEq] at h
        rcases h with ⟨h1, h2⟩
        subst h1
        rcases he with he | he | he <;> simp at he
      · rcases mainPart_error_cases h with h1 | ⟨h1, h2, _⟩
        · rcases h1 with h1 | h1 <;> subst h1 <;> rcases he with he | he | he <;> simp at he
        · subst h2
          intro x hx
          exact List.eq_of_mem_replicate hx)

/-- C2 amended, witness: a structural-invariant failure (one subexperiment
against two groups) is raised with the accumulator still the zero
vector. -/
theorem c2_amended_witness : (0 : ℚ) = 0 :=
  c2_amended decomp0 buildOCTwo (.dict [("A", [circ0])]) (.dict [("A", [pauliZ])])
    [(1, .EXACT)] (.dict [("A", [[(.int 0, 1)]])]) .structuralInvariant [0]
    (by decide) (Or.inr (Or.inr rfl)) 0 (by simp)

/-- C7 counterexample: a flat subexperiments sequence combined with a
dictionary of observables containing a nonzero-phase observable raises the
shape-mismatch error, not the unsupported-phase error — so "some observable
has nonzero phase" does not imply that the unsupported-phase error is
raised. -/
theorem c7_counterexample :
    reconstruct_expectation_values decomp0 buildOCZ (.flat [])
        (.dict [("A", [pauliZbad])]) [] (.flat []) =
      .error (.shapeMismatch, []) ∧ pauliZbad.phase ≠ 0 := by
  constructor <;> decide

/-- C7 amended: among consistently shaped inputs (all three flat, or all
three dictionaries), the unsupported-phase error is raised if and only if
some input observable has nonzero phase, and it is raised with the empty
accumulator, before any accumulation. -/
theorem c7_amended (decomp : List Pauli → String → List (Label × List Pauli))
    (buildOC : List Pauli → ObservableCollection) :
    (∀ (se : List QuantumCircuit) (ob : List Pauli) (w : List (ℚ × WeightType))
        (qd : List QuasiDist),
      reconstruct_expectation_values decomp buildOC (.flat se) (.flat ob) w (.flat qd) =
          .error (.unsupportedPhase, []) ↔
        (ob.any fun p => p.phase != 0) = true) ∧
    (∀ (se : List (Label × List QuantumCircuit)) (ob : List (Label × List Pauli))
        (w : List (ℚ × WeightType)) (qd : List (Label × List QuasiDist)),
      reconstruct_expectation_values decomp buildOC (.dict se) (.dict ob) w (.dict qd) =
          .error (.unsupportedPhase, []) ↔
        (ob.any fun lp => lp.2.any fun p => p.phase != 0) = true) := by
  constructor
  all_goals (
    intro se ob w qd
    constructor
    · intro h
      simp only [reconstruct_expectation_values] at h
      split at h
      · assumption
      · split at h
        · simp at h
        · rcases mainPart_error_cases h with h1 | ⟨h1, _, _⟩
          · rcases h1 with h1 | h1 <;> simp at h1
          · simp at h1
    · intro hany
      simp only [reconstruct_expectation_values]
      rw [if_pos hany])

theorem mainPart_structural_intro {buildOC : List Pauli → ObservableCollection}
    {sbs : List (Label × List Pauli)} {seDict : List (Label × List QuantumCircuit)}
    {qdDict : List (Label × List QuasiDist)} {weights : List (ℚ × WeightType)}
    {expvals0 : List ℚ} {numQpd : List (Label × List Nat)} {key0 : Label}
    {se0 : List QuantumCircuit} {so0 : ObservableCollection}
    (h1 : computeNumQpdBits seDict (sortKeys (buildSO buildOC sbs)) = .ok numQpd)
    (h2 : (sortKeys seDict)[0]? = some key0)
    (h3 : dictLookup seDict key0 = some se0)
    (h4 : dictLookup (buildSO buildOC sbs) key0 = some so0)
    (h5 : ¬so0.groups.length = 0)
    (h6 : ¬se0.length % so0.groups.length = 0) :
    mainPart buildOC sbs seDict qdDict weights expvals0 =
      .error (.structuralInvariant, expvals0) := by
  simp only [mainPart, h1, h2, h3, h4]
  rw [if_neg h5, if_pos h6]

/-- C3 counterexample: one label, one commuting group, one weight term but
two subexperiments — the subexperiment count 2 is divisible by the group
count 1, yet the quotient 2 differs from the weight count 1; the claim
demands a fail-fast raise, but the run completes and returns a value. -/
theorem c3_counterexample :
    reconstruct_expectation_values decomp0 buildOCZ
        (.dict [("A", [circ0, circ0])]) (.dict [("A", [pauliZ])])
        [(1, .EXACT)] (.dict [("A", [[(.int 0, 1)], [(.int 0, 1)]])]) =
      .ok [1] ∧
    [circ0, circ0].length / (buildOCZ [pauliZ]).groups.length ≠
      [((1 : ℚ), WeightType.EXACT)].length := by
  constructor <;> decide

/-- C3 amended: the structural check inspects only the lexicographically
smallest key of the subexperiments dictionary, and asserts only that this
label's subexperiment count is an exact multiple of its (nonzero) group
count; the quotient is never compared with the number of weight terms, and
no other label is checked.  When this one check fails the function raises
before any accumulation: the recorded accumulator is the initial zero
vector `expvals0`. -/
theorem c3_amended (buildOC : List Pauli → ObservableCollection)
    (sbs : List (Label × List Pauli)) (seDict : List (Label × List QuantumCircuit))
    (qdDict : List (Label × List QuasiDist)) (weights : List (ℚ × WeightType))
    (expvals0 : List ℚ) :
    ((∃ v, mainPart buildOC sbs seDict qdDict weights expvals0 =
        .error (.structuralInvariant, v)) ↔
      ∃ numQpd key0 se0 so0,
        computeNumQpdBits seDict (sortKeys (buildSO buildOC sbs)) = .ok numQpd ∧
        (sortKeys seDict)[0]? = some key0 ∧
        dictLookup seDict key0 = some se0 ∧
        dictLookup (buildSO buildOC sbs) key0 = some so0 ∧
        ¬so0.groups.length = 0 ∧
        ¬se0.length % so0.groups.length = 0) ∧
    (∀ v, mainPart buildOC sbs seDict qdDict weights expvals0 =
        .error (.structuralInvariant, v) → v = expvals0) := by
  constructor
  · constructor
    · intro ⟨v, h⟩
      rcases mainPart_error_cases h with h1 | ⟨_, _, hex⟩
      · rcases h1 with h1 | h1 <;> simp at h1
      · exact hex
    · intro ⟨numQpd, key0, se0, so0, h1, h2, h3, h4, h5, h6⟩
      exact ⟨expvals0, mainPart_structural_intro h1 h2 h3 h4 h5 h6⟩
  · intro v h
    rcases mainPart_error_cases h with h1 | ⟨_, h2, _⟩
    · rcases h1 with h1 | h1 <;> simp at h1
    · exact h2

theorem applyMeans_spec (so : ObservableCollection) (sv : List (List ℚ)) :
    ∀ (l : List Pauli) (k0 : Nat) (cur cur' : List ℚ),
      applyMeans so sv l k0 cur = .ok cur' →
      (∀ j, (j < k0 ∨ k0 + l.length ≤ j) → cur'[j]? = cur[j]?) ∧
      (∀ j subobs, l[j]? = some subobs →
        ∃ vals c, lookupVals so sv subobs = .ok vals ∧
          cur[k0 + j]? = some c ∧ cur'[k0 + j]? = some (c * listMean vals)) := by
  intro l
  induction l with
  | nil =>
    intro k0 cur cur' h
    simp only [applyMeans] at h
    injection h with h
    subst h
    refine ⟨fun j _ => rfl, ?_⟩
    intro j subobs hj
    simp at hj
  | cons subobs rest ih =>
    intro k0 cur cur' h
    simp only [applyMeans] at h
    cases hv : lookupVals so sv subobs with
    | error e =>
      rw [hv] at h
      simp [Bind.bind, Except.bind] at h
    | ok vals =>
      rw [hv] at h
      simp only [Bind.bind, Except.bind] at h
      cases hc : cur[k0]? with
      | none =>
        rw [hc] at h
        simp [toE, Except.bind] at h
      | some c =>
        rw [hc] at h
        simp only [toE, Except.bind] at h
        have hk0 : k0 < cur.length := by
          by_contra hlen
          rw [List.getElem?_eq_none (le_of_not_lt hlen)] at hc
          exact Option.noConfusion hc
        obtain ⟨hout, hin⟩ := ih (k0 + 1) (cur.set k0 (c * listMean vals)) cur' h
        constructor
        · intro j hj
          simp only [List.length_cons] at hj
          have hjne : k0 ≠ j := by omega
          have h1 : cur'[j]? = (cur.set k0 (c * listMean vals))[j]? := by
            apply hout
            omega
          rw [h1, List.getElem?_set_ne hjne]
        · intro j sub hj
          cases j with
          | zero =>
            simp only [List.getElem?_cons_zero] at hj
            injection hj with hj
            subst hj
            refine ⟨vals, c, hv, by simpa using hc, ?_⟩
            have h1 : cur'[k0]? = (cur.set k0 (c * listMean vals))[k0]? := by
              apply hout
              omega
            rw [Nat.add_zero, h1]
            exact List.getElem?_set_self hk0
          | succ j' =>
            simp only [List.getElem?_cons_succ] at hj
            obtain ⟨vals', c', hlv, hcur1, hcur'⟩ := hin j' sub hj
            have hne : k0 ≠ k0 + 1 + j' := by omega
            have hidx : k0 + (j' + 1) = k0 + 1 + j' := by omega
            refine ⟨vals', c', hlv, ?_, ?_⟩
            · rw [List.getElem?_set_ne hne] at hcur1
              rw [hidx]
              exact hcur1
            · rw [hidx]
              exact hcur'

/-- C6: during reconstruction, the per-weight-term factor multiplied into
entry `k` of the per-observable accumulator (by the enumerate loop embedded
as `applyMeans`, which `labelStep` runs once per subsystem label) is the
arithmetic mean of the group-accumulator values at all (group, position)
pairs that the reverse lookup yields for the `k`-th subobservable; when the
lookup yields a single pair, the factor is exactly that group-accumulator
entry. -/
theorem c6_mean_contribution (so : ObservableCollection) (sv : List (List ℚ))
    (l : List Pauli) (cur cur' : List ℚ)
    (h : applyMeans so sv l 0 cur = .ok cur')
    (k : Nat) (subobs : Pauli) (hk : l[k]? = some subobs) :
    (∃ vals c, lookupVals so sv subobs = .ok vals ∧ cur[k]? = some c ∧
        cur'[k]? = some (c * listMean vals)) ∧
    (∀ mn v, so.lookup subobs = [mn] → svEntry sv mn = some v →
        ∃ c, cur[k]? = some c ∧ cur'[k]? = some (c * v)) := by
  obtain ⟨-, hin⟩ := applyMeans_spec so sv l 0 cur cur' h
  obtain ⟨vals, c, hlv, hc, hc'⟩ := hin k subobs hk
  rw [Nat.zero_add] at hc hc'
  refine ⟨⟨vals, c, hlv, hc, hc'⟩, ?_⟩
  intro mn v hmn hsv
  refine ⟨c, hc, ?_⟩
  have hone : lookupVals so sv subobs = .ok [v] := by
    simp [lookupVals, hmn, List.mapM, List.mapM.loop, hsv, toE, Bind.bind,
      Except.bind, pure, Except.pure]
  rw [hone] at hlv
  injection hlv with hlv
  subst hlv
  have hm : listMean [v] = v := by
    simp [listMean]
  rw [hm] at hc'
  exact hc'

/-- C6 witness: with one group-accumulator entry `5` looked up through the
single pair `(0, 0)` and an accumulator entry `2`, the updated entry is
`2 * 5 = 10`. -/
theorem c6_mean_contribution_witness :
    (∃ vals c, lookupVals ocZ [[(5 : ℚ)]] pauliZ = .ok vals ∧
        [(2 : ℚ)][0]? = some c ∧ [(10 : ℚ)][0]? = some (c * listMean vals)) ∧
    (∀ mn v, ocZ.lookup pauliZ = [mn] → svEntry [[(5 : ℚ)]] mn = some v →
        ∃ c, [(2 : ℚ)][0]? = some c ∧ [(10 : ℚ)][0]? = some (c * v)) :=
  c6_mean_contribution ocZ [[5]] [pauliZ] [2] [10] (by decide) 0 pauliZ (by decide)

theorem foldlM_congr {α β ε : Type} {f g : β → α → Except ε β}
    (h : ∀ b a, f b a = g b a) :
    ∀ (l : List α) (b : β), l.foldlM f b = l.foldlM g b := by
  intro l
  induction l with
  | nil => intro b; rfl
  | cons a rest ih =>
    intro b
    rw [List.foldlM_cons, List.foldlM_cons, h]
    congr 1
    funext b'
    exact ih b'

theorem labelStep_congr {soDict : List (Label × ObservableCollection)}
    {sbs : List (Label × List Pauli)} {numQpd : List (Label × List Nat)}
    {qdDict : List (Label × List QuasiDist)} {w1 w2 : List (ℚ × WeightType)} {i : Nat}
    (hg : w1[i]?.map Prod.fst = w2[i]?.map Prod.fst) :
    labelStep soDict sbs numQpd qdDict w1 i = labelStep soDict sbs numQpd qdDict w2 i := by
  funext cur label
  simp only [labelStep]
  cases h1 : w1[i]? with
  | none =>
    cases h2 : w2[i]? with
    | none => rfl
    | some b => rw [h1, h2] at hg; simp at hg
  | some a =>
    cases h2 : w2[i]? with
    | none => rw [h1, h2] at hg; simp at hg
    | some b => simp [toE, Bind.bind, Except.bind]

theorem weightStep_congr {soDict : List (Label × ObservableCollection)}
    {sortedSubsystems : List Label} {sbs : List (Label × List Pauli)}
    {numQpd : List (Label × List Nat)} {qdDict : List (Label × List QuasiDist)}
    {w1 w2 : List (ℚ × WeightType)}
    (hg : ∀ i : Nat, w1[i]?.map Prod.fst = w2[i]?.map Prod.fst) :
    weightStep soDict sortedSubsystems sbs numQpd qdDict w1 =
      weightStep soDict sortedSubsystems sbs numQpd qdDict w2 := by
  funext expvals i
  simp only [weightStep, labelStep_congr (hg i)]
  cases hres : sortedSubsystems.foldlM
      (labelStep soDict sbs numQpd qdDict w2 i) (List.replicate expvals.length 1) with
  | error e => rfl
  | ok current =>
    cases sortedSubsystems with
    | nil => rfl
    | cons l rest =>
      have := hg i
      cases h1 : w1[i]? with
      | none =>
        cases h2 : w2[i]? with
        | none => rfl
        | some b => simp [h1, h2] at this
      | some a =>
        cases h2 : w2[i]? with
        | none => simp [h1, h2] at this
        | some b =>
          obtain ⟨q1, t1⟩ := a
          obtain ⟨q2, t2⟩ := b
          simp [h1, h2] at this
          subst this
          rfl

theorem mainPart_weights_congr (buildOC : List Pauli → ObservableCollection)
    (sbs : List (Label × List Pauli)) (seDict : List (Label × List QuantumCircuit))
    (qdDict : List (Label × List QuasiDist)) {w1 w2 : List (ℚ × WeightType)}
    (h : w1.map Prod.fst = w2.map Prod.fst) (expvals0 : List ℚ) :
    mainPart buildOC sbs seDict qdDict w1 expvals0 =
      mainPart buildOC sbs seDict qdDict w2 expvals0 := by
  have hlen : w1.length = w2.length := by
    have := congrArg List.length h
    simpa using this
  have hg : ∀ i : Nat, w1[i]?.map Prod.fst = w2[i]?.map Prod.fst := by
    intro i
    rw [← List.getElem?_map, ← List.getElem?_map, h]
  simp only [mainPart, hlen, weightStep_congr hg]

/-- C10: the result of `reconstruct_expectation_values` depends only on the
numeric coefficient of each weight term, never on its `WeightType`
provenance tag: two weight sequences agreeing coefficient-wise produce
identical results (identical values, and identical errors with identical
recorded accumulators) on identical other inputs. -/
theorem c10_weight_tag_noninterference
    (decomp : List Pauli → String → List (Label × List Pauli))
    (buildOC : List Pauli → ObservableCollection)
    (se : SubexperimentsInput) (ob : ObservablesInput) (qd : QuasiDistsInput)
    (w1 w2 : List (ℚ × WeightType))
    (h : w1.map Prod.fst = w2.map Prod.fst) :
    reconstruct_expectation_values decomp buildOC se ob w1 qd =
      reconstruct_expectation_values decomp buildOC se ob w2 qd := by
  cases se <;> cases ob <;> cases qd <;> simp only [reconstruct_expectation_values]
  all_goals (
    split
    · rfl
    · split
      · rfl
      · exact mainPart_weights_congr _ _ _ _ h _)

/-- C10 witness: replacing the tag `EXACT` by `SAMPLED` on the same
coefficient leaves the reconstructed expectation values unchanged. -/
theorem c10_weight_tag_noninterference_witness :
    reconstruct_expectation_values decomp0 buildOCZ (.dict [("A", [circ0])])
        (.dict [("A", [pauliZ])]) [(1, .EXACT)] (.dict [("A", [[(.int 0, 1)]])]) =
      reconstruct_expectation_values decomp0 buildOCZ (.dict [("A", [circ0])])
        (.dict [("A", [pauliZ])]) [(1, .SAMPLED)] (.dict [("A", [[(.int 0, 1)]])]) :=
  c10_weight_tag_noninterference decomp0 buildOCZ (.dict [("A", [circ0])])
    (.dict [("A", [pauliZ])]) (.dict [("A", [[(.int 0, 1)]])])
    [(1, .EXACT)] [(1, .SAMPLED)] (by decide)
